import Mathlib

/-!
Verification of the schedule_demo repository.

The file shallowly embeds the timetabling model built by
`src/scenario_b_feasible.py` (data tables, decision-variable space, the
hard constraints added with `model.Add`, the minimized soft objective,
and the decoding loop that turns a solver assignment into schedule
entries) as well as the chart renderer `src/plot_schedule.py` (its early
return on empty input and its room-color map).  The CP-SAT solving
engine itself is an external library; the parts of the claims that
depend on it are modelled from the specification and marked as such in
their doc comments.
-/

/-! ## Static configuration data (src/scenario_b_feasible.py, lines 7-34) -/

def students : List String := ["S1", "S2", "S3"]

def subjects : List String := ["A", "B", "C", "D", "E"]

def days : List String := ["Mon", "Tue", "Wed", "Thu", "Fri"]

def periods : List Nat := List.range 5

def rooms : List (String × String) :=
  [("A", "Room_A"), ("B", "Room_B"), ("C", "Room_C"), ("D", "Room_D"), ("E", "Room_E")]

def teachers : List (String × String) :=
  [("A", "T1"), ("B", "T2"), ("C", "T3"), ("D", "T4"), ("E", "T5")]

def subject_hours : List (String × Nat) :=
  [("A", 2), ("B", 2), ("C", 5), ("D", 1), ("E", 1)]

/-- Dictionary access `m[k]` on a Python dict embedded as an association
list; every access performed by the program is on a present key, so the
default is never observed. -/
def dget (m : List (String × α)) (k : String) (dflt : α) : α :=
  (m.lookup k).getD dflt

def hoursOf (subj : String) : Nat := dget subject_hours subj 0

def teacherOf (subj : String) : String := dget teachers subj ""

def roomOf (subj : String) : String := dget rooms subj ""

/-- `rooms.values()` in iteration order. -/
def roomValues : List String := rooms.map Prod.snd

/-- `range(len(days))`, the day indices iterated by every loop. -/
def dayIdxs : List Nat := List.range days.length

/-! ## Pre-solve sanity-check numbers (lines 36-44) -/

def allowed_days_t1 : List Nat := [1, 2]

def required_A_lessons : Nat := students.length * hoursOf "A"

def t1_capacity : Nat := periods.length * allowed_days_t1.length

/-! ## Decision variables and constraints (lines 46-126)

A complete solver assignment resolves each boolean variable
`x[(s, subj, d, p, r)]`; we embed it as a boolean-valued function on the
key tuple. -/

def Assg : Type := String → String → Nat → Nat → String → Bool

/-- Sum of `f` over a list, mirroring Python's `sum(...)` over a generator. -/
def lsum (l : List α) (f : α → Nat) : Nat := (l.map f).sum

/-- The summed expression of constraint 1: number of variables resolved
true for one (student, subject) pair across all days, periods, rooms. -/
def pairTrueCount (a : Assg) (s subj : String) : Nat :=
  lsum dayIdxs fun d => lsum periods fun p => lsum roomValues fun r =>
    if a s subj d p r then 1 else 0

/-- Constraint 1 (lines 57-67): each student gets the correct weekly
hours per subject. -/
def quotaOK (a : Assg) : Bool :=
  students.all fun s => subjects.all fun subj =>
    pairTrueCount a s subj == hoursOf subj

/-- The summed expression of constraint 2: lessons of one student in one
slot, across subjects and rooms. -/
def studentSlotCount (a : Assg) (s : String) (d p : Nat) : Nat :=
  lsum subjects fun subj => lsum roomValues fun r =>
    if a s subj d p r then 1 else 0

/-- Constraint 2 (lines 69-79): a student cannot have two lessons at the
same time. -/
def studentSlotOK (a : Assg) : Bool :=
  students.all fun s => dayIdxs.all fun d => periods.all fun p =>
    studentSlotCount a s d p ≤ 1

/-- The summed expression of constraint 3: lessons in one room in one
slot, across students and subjects. -/
def roomSlotCount (a : Assg) (r : String) (d p : Nat) : Nat :=
  lsum students fun s => lsum subjects fun subj =>
    if a s subj d p r then 1 else 0

/-- Constraint 3 (lines 81-91): a room cannot host two classes at the
same time. -/
def roomSlotOK (a : Assg) : Bool :=
  roomValues.all fun r => dayIdxs.all fun d => periods.all fun p =>
    roomSlotCount a r d p ≤ 1

/-- The summed expression of constraint 4: lessons of one subject in one
slot, across students and rooms (one subject has one teacher). -/
def subjectSlotCount (a : Assg) (subj : String) (d p : Nat) : Nat :=
  lsum students fun s => lsum roomValues fun r =>
    if a s subj d p r then 1 else 0

/-- Constraint 4 (lines 93-103): a teacher cannot teach two classes at
the same time (stated per subject, one subject per teacher). -/
def teacherSlotOK (a : Assg) : Bool :=
  subjects.all fun subj => dayIdxs.all fun d => periods.all fun p =>
    subjectSlotCount a subj d p ≤ 1

/-- Constraint 5 (lines 105-113): teacher T1 only works on the allowed
days; every variable of a T1 subject on another day is constrained to 0. -/
def t1OK (a : Assg) : Bool :=
  students.all fun s => subjects.all fun subj =>
    if teacherOf subj == "T1" then
      dayIdxs.all fun d =>
        if d ∈ allowed_days_t1 then true
        else periods.all fun p => roomValues.all fun r =>
          a s subj d p r == false
    else true

/-- All hard constraints of the CP model hold under the assignment. -/
def satisfiesB (a : Assg) : Bool :=
  quotaOK a && studentSlotOK a && roomSlotOK a && teacherSlotOK a && t1OK a

def Satisfies (a : Assg) : Prop := satisfiesB a = true

/-- The minimized objective (lines 115-126): number of variables
resolved true whose room differs from the subject's preferred room
`rooms[subj]`. -/
def objectiveValue (a : Assg) : Nat :=
  lsum students fun s => lsum subjects fun subj =>
    lsum dayIdxs fun d => lsum periods fun p => lsum roomValues fun r =>
      if r ≠ roomOf subj then (if a s subj d p r then 1 else 0) else 0

/-! ## Decoding (lines 145-159) -/

structure ScheduleEntry where
  student : String
  day : Nat
  period : Nat
  subject : String
  room : String
deriving DecidableEq

/-- The decoding loop: for each student, day, period in order, append an
entry `(s, d, p, subj, r)` for every variable resolved true. -/
def entries (a : Assg) : List ScheduleEntry :=
  students.flatMap fun s => dayIdxs.flatMap fun d => periods.flatMap fun p =>
    subjects.flatMap fun subj => roomValues.flatMap fun r =>
      if a s subj d p r then [⟨s, d, p, subj, r⟩] else []

/-! ## A concrete penalty-zero solution, used as witness material -/

def schedS1 (n : Nat) : Option String :=
  if n ≤ 1 then some "B"
  else if 5 ≤ n && n ≤ 6 then some "A"
  else if 10 ≤ n && n ≤ 14 then some "C"
  else if n = 15 then some "D"
  else if n = 16 then some "E"
  else none

def schedS2 (n : Nat) : Option String :=
  if n = 2 || n = 3 then some "B"
  else if n = 7 || n = 8 then some "A"
  else if 15 ≤ n && n ≤ 19 then some "C"
  else if n = 20 then some "D"
  else if n = 21 then some "E"
  else none

def schedS3 (n : Nat) : Option String :=
  if n ≤ 3 || n = 24 then some "C"
  else if n = 4 || n = 22 then some "B"
  else if n = 9 || n = 10 then some "A"
  else if n = 23 then some "D"
  else if n = 11 then some "E"
  else none

def schedOf (s : String) (n : Nat) : Option String :=
  if s == "S1" then schedS1 n
  else if s == "S2" then schedS2 n
  else if s == "S3" then schedS3 n
  else none

/-- A hand-built complete assignment: every lesson sits in its subject's
preferred room, so its penalty is zero. -/
def aStar : Assg := fun s subj d p r =>
  match schedOf s (5 * d + p) with
  | some subj2 => subj == subj2 && r == roomOf subj2
  | none => false

/-! ## Entry keys for the slot-exclusivity invariants -/

/-- Two entries occupy the same (student, day, period). -/
def sameStudentSlot (x y : ScheduleEntry) : Bool :=
  x.student == y.student && x.day == y.day && x.period == y.period

/-- Two entries occupy the same (room, day, period). -/
def sameRoomSlot (x y : ScheduleEntry) : Bool :=
  x.room == y.room && x.day == y.day && x.period == y.period

/-- Two entries have subjects of the same teacher and occupy the same
(day, period). -/
def sameTeacherSlot (x y : ScheduleEntry) : Bool :=
  teacherOf x.subject == teacherOf y.subject && x.day == y.day && x.period == y.period

/-- An entry sits in a room different from its subject's preferred room. -/
def mismatchedRoom (e : ScheduleEntry) : Bool :=
  !(e.room == roomOf e.subject)

/-! ## Solver outcome (lines 128-145)

`cp_model.CpSolverStatus` has exactly the five values mapped by the
`status_name` dictionary of the source. -/

inductive CpStatus where
  | OPTIMAL
  | FEASIBLE
  | INFEASIBLE
  | UNKNOWN
  | MODEL_INVALID
deriving DecidableEq

/-- The post-solve flow of lines 145-167: only when the status is
OPTIMAL or FEASIBLE is the entry list decoded and handed to the
rendering collaborator `plot_schedule`; otherwise nothing is produced. -/
def postSolve (st : CpStatus) (a : Assg) : Option (List ScheduleEntry) :=
  if st = .OPTIMAL ∨ st = .FEASIBLE then some (entries a) else none

/-- Modelled from the spec: the outcome contract of the solving engine
(spec §4.5 and §7), which `src/scenario_b_feasible.py` delegates to the
external CP-SAT library and which is therefore not part of src/.  An
OPTIMAL outcome carries a constraint-satisfying assignment of provably
minimal penalty; a FEASIBLE outcome carries a constraint-satisfying
assignment; INFEASIBLE asserts that no satisfying assignment exists; the
remaining outcomes carry no assignment guarantee. -/
def EngineReturns (st : CpStatus) (a : Assg) : Prop :=
  match st with
  | .OPTIMAL => Satisfies a ∧ ∀ b, Satisfies b → objectiveValue a ≤ objectiveValue b
  | .FEASIBLE => Satisfies a
  | .INFEASIBLE => ∀ b, ¬ Satisfies b
  | .UNKNOWN => True
  | .MODEL_INVALID => True

/-! ## The pre-search feasibility check, generalized per teacher

Modelled from the spec (§4.1): the Model Builder of the solving engine
is delegated to the external CP-SAT library and is not part of src/;
the spec requires it to compare, for each teacher, the total required
lesson-slots against the teacher's available slot capacity and to
report `MODEL_INVALID` without entering search when required exceeds
capacity. -/

structure BuildConfig where
  cfgStudents : List String
  cfgSubjects : List String
  cfgHours : String → Nat
  cfgTeacherOf : String → String
  cfgAllowedDays : String → Option (List Nat)
  cfgNumDays : Nat
  cfgPeriodsPerDay : Nat

/-- Modelled from the spec: total required lesson-slots of one teacher,
the sum of the quotas of the subjects it teaches, across all students. -/
def requiredLessons (c : BuildConfig) (t : String) : Nat :=
  lsum c.cfgStudents fun _ =>
    lsum (c.cfgSubjects.filter fun subj => c.cfgTeacherOf subj == t) c.cfgHours

/-- Modelled from the spec: number of days on which the teacher may
teach (an absent restriction means all days are allowed). -/
def availableDays (c : BuildConfig) (t : String) : Nat :=
  match c.cfgAllowedDays t with
  | some ds => ds.length
  | none => c.cfgNumDays

/-- Modelled from the spec: the teacher's available slot capacity,
allowed days times periods per day. -/
def slotCapacity (c : BuildConfig) (t : String) : Nat :=
  availableDays c t * c.cfgPeriodsPerDay

/-- Modelled from the spec: the pre-search sanity check passes when no
teacher's required lesson-slots exceed its capacity. -/
def sanityOK (c : BuildConfig) : Bool :=
  (c.cfgSubjects.map c.cfgTeacherOf).all fun t =>
    requiredLessons c t ≤ slotCapacity c t

/-- Modelled from the spec: the build step gates the search.  The result
pairs the reported status with whether search was entered; a failed
sanity check reports `MODEL_INVALID` and never enters search, otherwise
the outcome is whatever the search produces. -/
def buildAndSolve (c : BuildConfig) (searchOutcome : CpStatus) : CpStatus × Bool :=
  if sanityOK c then (searchOutcome, true) else (.MODEL_INVALID, false)

/-- The spec's scenario: 2 students, 1 subject with quota 1 each, the
teacher restricted to 0 available slots. -/
def cfgZeroDays : BuildConfig where
  cfgStudents := ["S1", "S2"]
  cfgSubjects := ["M"]
  cfgHours := fun _ => 1
  cfgTeacherOf := fun _ => "T"
  cfgAllowedDays := fun _ => some []
  cfgNumDays := 5
  cfgPeriodsPerDay := 5

/-! ## The chart renderer (src/plot_schedule.py)

The renderer's effects (matplotlib drawing and `savefig`) are embedded
as a value describing what was drawn and whether an output artifact was
persisted. -/

/-- Lexicographic-by-codepoint comparison of strings, the order Python's
`sorted` uses on `str`. -/
def strLeChars : List Char → List Char → Bool
  | [], _ => true
  | _ :: _, [] => false
  | c :: cs, d :: ds =>
    if c.toNat < d.toNat then true
    else if d.toNat < c.toNat then false
    else strLeChars cs ds

def strLe (a b : String) : Bool :=
  strLeChars a.data b.data

def insertSorted (x : String) : List String → List String
  | [] => [x]
  | y :: ys => if strLe x y then x :: y :: ys else y :: insertSorted x ys

/-- Insertion sort standing for Python's `sorted`. -/
def sortStrings : List String → List String
  | [] => []
  | x :: xs => insertSorted x (sortStrings xs)

/-- Line 24: `sorted({room for _, _, _, _, room in entries})`. -/
def unique_rooms (es : List ScheduleEntry) : List String :=
  sortStrings (es.map (·.room)).dedup

/-- The tab10 colormap of matplotlib (external collaborator): a palette
of 10 distinct colors; the value `k` stands for the k-th palette color,
so two color values are equal exactly when the palette indices agree. -/
def tab10 (k : Nat) : Nat := k

/-- Lines 26-29: `{room: cmap(i % 10) for i, room in enumerate(unique_rooms)}`. -/
def room_colors (es : List ScheduleEntry) : List (String × Nat) :=
  (unique_rooms es).enum.map fun ir => (ir.2, tab10 (ir.1 % 10))

/-- What one `ax.broken_barh` call draws for an entry (line 50-60):
the student row, the slot start `day_idx * period_count + period_idx`,
and the color looked up in `room_colors` (a failed dict lookup would
raise, embedded as `none`). -/
def blockOf (es : List ScheduleEntry) (periodCount : Nat) (e : ScheduleEntry) :
    String × Nat × Option Nat :=
  (e.student, e.day * periodCount + e.period, (room_colors es).lookup e.room)

structure PlotResult where
  savedTo : Option String
  blocks : List (String × Nat × Option Nat)
deriving DecidableEq

/-- The renderer `plot_schedule(entries, students, days, periods,
output_path)`: on an empty entry list it returns at once (lines 15-17),
drawing nothing and saving nothing; otherwise it draws one block per
entry and persists the chart to `output_path` (line 135). -/
def plot_schedule (es : List ScheduleEntry) (_students : List String)
    (_days : List String) (periods_ : List Nat) (output_path : String) : PlotResult :=
  if es = [] then { savedTo := none, blocks := [] }
  else
    { savedTo := some output_path
      blocks := es.map (blockOf es periods_.length) }

/-- A single concrete entry list for the renderer. -/
def esOne : List ScheduleEntry := [⟨"S1", 0, 0, "A", "Room_A"⟩]

/-- A concrete entry list using 11 distinct rooms. -/
def esBig : List ScheduleEntry :=
  (List.range 11).map fun i =>
    ⟨"S1", 0, i, "A", "R" ++ toString i⟩

/-! # Theorems -/

theorem aStar_sat : Satisfies aStar := by
  show satisfiesB aStar = true
  decide

theorem aStar_obj : objectiveValue aStar = 0 := by decide

/-! ## List-sum helper lemmas -/

theorem lsum_cons (x : α) (l : List α) (f : α → Nat) :
    lsum (x :: l) f = f x + lsum l f := by
  simp [lsum]

theorem lsum_congr {l : List α} {f g : α → Nat} (h : ∀ x ∈ l, f x = g x) :
    lsum l f = lsum l g := by
  induction l with
  | nil => rfl
  | cons x t ih =>
    rw [lsum_cons, lsum_cons, h x (List.mem_cons_self x t),
      ih fun y hy => h y (List.mem_cons_of_mem x hy)]

theorem lsum_eq_zero {l : List α} {f : α → Nat} (h : ∀ x ∈ l, f x = 0) :
    lsum l f = 0 := by
  apply List.sum_eq_zero
  intro n hn
  rw [List.mem_map] at hn
  obtain ⟨x, hx, rfl⟩ := hn
  exact h x hx

theorem lsum_eq_single {l : List α} {f : α → Nat} {x : α} (hnd : l.Nodup)
    (hx : x ∈ l) (h0 : ∀ y ∈ l, y ≠ x → f y = 0) : lsum l f = f x := by
  induction l with
  | nil => cases hx
  | cons z t ih =>
    rw [lsum_cons]
    rcases List.mem_cons.mp hx with rfl | hmem
    · have ht : lsum t f = 0 := lsum_eq_zero fun y hy =>
        h0 y (List.mem_cons_of_mem _ hy)
          (by rintro rfl; exact (List.nodup_cons.mp hnd).1 hy)
      rw [ht, Nat.add_zero]
    · have hz : f z = 0 := h0 z (List.mem_cons_self _ _)
        (by rintro rfl; exact (List.nodup_cons.mp hnd).1 hmem)
      rw [hz, ih (List.nodup_cons.mp hnd).2 hmem
        fun y hy hne => h0 y (List.mem_cons_of_mem _ hy) hne]
      rw [Nat.zero_add]

theorem countP_flatMap (l : List α) (f : α → List β) (p : β → Bool) :
    (l.flatMap f).countP p = lsum l fun x => (f x).countP p := by
  induction l with
  | nil => rfl
  | cons x t ih => rw [List.flatMap_cons, List.countP_append, ih, lsum_cons]

theorem students_nodup : students.Nodup := by decide

theorem subjects_nodup : subjects.Nodup := by decide

theorem dayIdxs_nodup : dayIdxs.Nodup := by decide

theorem periods_nodup : periods.Nodup := by decide

theorem roomValues_nodup : roomValues.Nodup := by decide

/-! ## Counting decoded entries -/

theorem countP_entries (a : Assg) (q : ScheduleEntry → Bool) :
    (entries a).countP q =
      lsum students fun s => lsum dayIdxs fun d => lsum periods fun p =>
        lsum subjects fun subj => lsum roomValues fun r =>
          if a s subj d p r then (if q ⟨s, d, p, subj, r⟩ then 1 else 0) else 0 := by
  unfold entries
  rw [countP_flatMap]; refine lsum_congr fun s _ => ?_
  rw [countP_flatMap]; refine lsum_congr fun d _ => ?_
  rw [countP_flatMap]; refine lsum_congr fun p _ => ?_
  rw [countP_flatMap]; refine lsum_congr fun subj _ => ?_
  rw [countP_flatMap]; refine lsum_congr fun r _ => ?_
  by_cases h : a s subj d p r = true
  · simp [h, List.countP_cons]
  · simp [h]

theorem mem_entries {a : Assg} {e : ScheduleEntry} :
    e ∈ entries a ↔
      e.student ∈ students ∧ e.day ∈ dayIdxs ∧ e.period ∈ periods ∧
      e.subject ∈ subjects ∧ e.room ∈ roomValues ∧
      a e.student e.subject e.day e.period e.room = true := by
  unfold entries
  simp only [List.mem_flatMap]
  constructor
  · rintro ⟨s, hs, d, hd, p, hp, subj, hsubj, r, hr, hmem⟩
    split at hmem
    · next hcond =>
        rcases List.mem_singleton.mp hmem with rfl
        exact ⟨hs, hd, hp, hsubj, hr, hcond⟩
    · cases hmem
  · rintro ⟨hs, hd, hp, hsubj, hr, ha⟩
    refine ⟨e.student, hs, e.day, hd, e.period, hp, e.subject, hsubj, e.room, hr, ?_⟩
    rw [if_pos ha]
    exact List.mem_singleton.mpr rfl

/-! ## Unpacking the satisfaction predicate -/

theorem satisfies_parts {a : Assg} (h : Satisfies a) :
    quotaOK a = true ∧ studentSlotOK a = true ∧ roomSlotOK a = true ∧
      teacherSlotOK a = true ∧ t1OK a = true := by
  have h' := h
  unfold Satisfies satisfiesB at h'
  simp only [Bool.and_eq_true] at h'
  exact ⟨h'.1.1.1.1, h'.1.1.1.2, h'.1.1.2, h'.1.2, h'.2⟩

theorem satisfies_quota {a : Assg} (h : Satisfies a) :
    ∀ s ∈ students, ∀ subj ∈ subjects, pairTrueCount a s subj = hoursOf subj := by
  have hq := (satisfies_parts h).1
  unfold quotaOK at hq
  simp only [List.all_eq_true] at hq
  intro s hs subj hsubj
  exact beq_iff_eq.mp (hq s hs subj hsubj)

theorem satisfies_studentSlot {a : Assg} (h : Satisfies a) :
    ∀ s ∈ students, ∀ d ∈ dayIdxs, ∀ p ∈ periods, studentSlotCount a s d p ≤ 1 := by
  have hq := (satisfies_parts h).2.1
  unfold studentSlotOK at hq
  simp only [List.all_eq_true, decide_eq_true_eq] at hq
  exact hq

theorem satisfies_roomSlot {a : Assg} (h : Satisfies a) :
    ∀ r ∈ roomValues, ∀ d ∈ dayIdxs, ∀ p ∈ periods, roomSlotCount a r d p ≤ 1 := by
  have hq := (satisfies_parts h).2.2.1
  unfold roomSlotOK at hq
  simp only [List.all_eq_true, decide_eq_true_eq] at hq
  exact hq

theorem satisfies_subjectSlot {a : Assg} (h : Satisfies a) :
    ∀ subj ∈ subjects, ∀ d ∈ dayIdxs, ∀ p ∈ periods, subjectSlotCount a subj d p ≤ 1 := by
  have hq := (satisfies_parts h).2.2.2.1
  unfold teacherSlotOK at hq
  simp only [List.all_eq_true, decide_eq_true_eq] at hq
  exact hq

theorem satisfies_t1 {a : Assg} (h : Satisfies a) :
    ∀ s ∈ students, ∀ subj ∈ subjects, teacherOf subj = "T1" →
      ∀ d ∈ dayIdxs, d ∉ allowed_days_t1 → ∀ p ∈ periods, ∀ r ∈ roomValues,
        a s subj d p r = false := by
  have hq := (satisfies_parts h).2.2.2.2
  unfold t1OK at hq
  simp only [List.all_eq_true] at hq
  intro s hs subj hsubj ht d hd hdna p hp r hr
  have h1 := hq s hs subj hsubj
  rw [if_pos (by exact beq_iff_eq.mpr ht)] at h1
  rw [List.all_eq_true] at h1
  have h2 := h1 d hd
  rw [if_neg hdna, List.all_eq_true] at h2
  have h3 := h2 p hp
  rw [List.all_eq_true] at h3
  exact beq_iff_eq.mp (h3 r hr)

/-! ## Bridges between entry counts and constraint sums -/

theorem countP_pair (a : Assg) {s subj : String} (hs : s ∈ students)
    (hsubj : subj ∈ subjects) :
    (entries a).countP (fun e => e.student == s && e.subject == subj) =
      pairTrueCount a s subj := by
  rw [countP_entries]
  unfold pairTrueCount
  refine (lsum_eq_single students_nodup hs ?_).trans ?_
  · intro y _ hne
    refine lsum_eq_zero fun d _ => lsum_eq_zero fun p _ =>
      lsum_eq_zero fun subj2 _ => lsum_eq_zero fun r _ => ?_
    simp [beq_eq_false_iff_ne.mpr hne]
  · refine lsum_congr fun d _ => lsum_congr fun p _ => ?_
    refine (lsum_eq_single subjects_nodup hsubj ?_).trans ?_
    · intro y _ hne
      refine lsum_eq_zero fun r _ => ?_
      simp [beq_eq_false_iff_ne.mpr hne]
    · refine lsum_congr fun r _ => ?_
      simp

theorem countP_studentSlot (a : Assg) {s : String} {d p : Nat}
    (hs : s ∈ students) (hd : d ∈ dayIdxs) (hp : p ∈ periods) :
    (entries a).countP (fun e => e.student == s && e.day == d && e.period == p) =
      studentSlotCount a s d p := by
  rw [countP_entries]
  unfold studentSlotCount
  refine (lsum_eq_single students_nodup hs ?_).trans ?_
  · intro y _ hne
    refine lsum_eq_zero fun d2 _ => lsum_eq_zero fun p2 _ =>
      lsum_eq_zero fun subj2 _ => lsum_eq_zero fun r _ => ?_
    simp [beq_eq_false_iff_ne.mpr hne]
  · refine (lsum_eq_single dayIdxs_nodup hd ?_).trans ?_
    · intro y _ hne
      refine lsum_eq_zero fun p2 _ =>
        lsum_eq_zero fun subj2 _ => lsum_eq_zero fun r _ => ?_
      simp [beq_eq_false_iff_ne.mpr hne]
    · refine (lsum_eq_single periods_nodup hp ?_).trans ?_
      · intro y _ hne
        refine lsum_eq_zero fun subj2 _ => lsum_eq_zero fun r _ => ?_
        simp [beq_eq_false_iff_ne.mpr hne]
      · refine lsum_congr fun subj2 _ => lsum_congr fun r _ => ?_
        simp

theorem countP_roomSlot (a : Assg) {r0 : String} {d p : Nat}
    (hr : r0 ∈ roomValues) (hd : d ∈ dayIdxs) (hp : p ∈ periods) :
    (entries a).countP (fun e => e.room == r0 && e.day == d && e.period == p) =
      roomSlotCount a r0 d p := by
  rw [countP_entries]
  unfold roomSlotCount
  refine lsum_congr fun s _ => ?_
  refine (lsum_eq_single dayIdxs_nodup hd ?_).trans ?_
  · intro y _ hne
    refine lsum_eq_zero fun p2 _ =>
      lsum_eq_zero fun subj2 _ => lsum_eq_zero fun r2 _ => ?_
    simp [beq_eq_false_iff_ne.mpr hne]
  · refine (lsum_eq_single periods_nodup hp ?_).trans ?_
    · intro y _ hne
      refine lsum_eq_zero fun subj2 _ => lsum_eq_zero fun r2 _ => ?_
      simp [beq_eq_false_iff_ne.mpr hne]
    · refine lsum_congr fun subj2 _ => ?_
      refine (lsum_eq_single roomValues_nodup hr ?_).trans ?_
      · intro y _ hne
        simp [beq_eq_false_iff_ne.mpr hne]
      · simp

theorem teacherOf_inj :
    ∀ x ∈ subjects, ∀ y ∈ subjects, teacherOf x = teacherOf y → x = y := by decide

theorem countP_teacherSlot (a : Assg) {subj0 : String} {d p : Nat}
    (hsubj : subj0 ∈ subjects) (hd : d ∈ dayIdxs) (hp : p ∈ periods) :
    (entries a).countP
        (fun e => teacherOf e.subject == teacherOf subj0 && e.day == d && e.period == p) =
      subjectSlotCount a subj0 d p := by
  rw [countP_entries]
  unfold subjectSlotCount
  refine lsum_congr fun s _ => ?_
  refine (lsum_eq_single dayIdxs_nodup hd ?_).trans ?_
  · intro y _ hne
    refine lsum_eq_zero fun p2 _ =>
      lsum_eq_zero fun subj2 _ => lsum_eq_zero fun r2 _ => ?_
    simp [beq_eq_false_iff_ne.mpr hne]
  · refine (lsum_eq_single periods_nodup hp ?_).trans ?_
    · intro y _ hne
      refine lsum_eq_zero fun subj2 _ => lsum_eq_zero fun r2 _ => ?_
      simp [beq_eq_false_iff_ne.mpr hne]
    · refine (lsum_eq_single subjects_nodup hsubj ?_).trans ?_
      · intro y hy hne
        refine lsum_eq_zero fun r2 _ => ?_
        have : (teacherOf y == teacherOf subj0) = false :=
          beq_eq_false_iff_ne.mpr fun hEq => hne (teacherOf_inj y hy subj0 hsubj hEq)
        simp [this]
      · refine lsum_congr fun r2 _ => ?_
        simp

/-! ## From per-key counts to pairwise distinctness -/

theorem pairwise_of_countP_le_one {l : List α} {R : α → α → Bool}
    (hrefl : ∀ x ∈ l, R x x = true)
    (h : ∀ x ∈ l, l.countP (fun y => R x y) ≤ 1) :
    l.Pairwise fun x y => R x y = false := by
  induction l with
  | nil => exact List.Pairwise.nil
  | cons z t ih =>
    refine List.Pairwise.cons ?_ (ih ?_ ?_)
    · intro y hy
      have hc := h z (List.mem_cons_self _ _)
      rw [List.countP_cons, if_pos (hrefl z (List.mem_cons_self _ _))] at hc
      have h0 : t.countP (fun y => R z y) = 0 := by omega
      have hy2 := List.countP_eq_zero.mp h0 y hy
      exact Bool.eq_false_iff.mpr hy2
    · intro x hx
      exact hrefl x (List.mem_cons_of_mem _ hx)
    · intro x hx
      have hc := h x (List.mem_cons_of_mem _ hx)
      rw [List.countP_cons] at hc
      exact le_trans (Nat.le_add_right _ _) hc

theorem countP_sameStudentSlot (a : Assg) {x : ScheduleEntry} (hx : x ∈ entries a) :
    (entries a).countP (fun y => sameStudentSlot x y) =
      studentSlotCount a x.student x.day x.period := by
  obtain ⟨hs, hd, hp, _, _, _⟩ := mem_entries.mp hx
  have hcongr : (entries a).countP (fun y => sameStudentSlot x y) =
      (entries a).countP
        (fun y => y.student == x.student && y.day == x.day && y.period == x.period) := by
    refine List.countP_congr fun y _ => ?_
    unfold sameStudentSlot
    simp only [Bool.and_eq_true, beq_iff_eq]
    constructor
    · rintro ⟨⟨h1, h2⟩, h3⟩; exact ⟨⟨h1.symm, h2.symm⟩, h3.symm⟩
    · rintro ⟨⟨h1, h2⟩, h3⟩; exact ⟨⟨h1.symm, h2.symm⟩, h3.symm⟩
  rw [hcongr, countP_studentSlot a hs hd hp]

theorem countP_sameRoomSlot (a : Assg) {x : ScheduleEntry} (hx : x ∈ entries a) :
    (entries a).countP (fun y => sameRoomSlot x y) =
      roomSlotCount a x.room x.day x.period := by
  obtain ⟨_, hd, hp, _, hr, _⟩ := mem_entries.mp hx
  have hcongr : (entries a).countP (fun y => sameRoomSlot x y) =
      (entries a).countP
        (fun y => y.room == x.room && y.day == x.day && y.period == x.period) := by
    refine List.countP_congr fun y _ => ?_
    unfold sameRoomSlot
    simp only [Bool.and_eq_true, beq_iff_eq]
    constructor
    · rintro ⟨⟨h1, h2⟩, h3⟩; exact ⟨⟨h1.symm, h2.symm⟩, h3.symm⟩
    · rintro ⟨⟨h1, h2⟩, h3⟩; exact ⟨⟨h1.symm, h2.symm⟩, h3.symm⟩
  rw [hcongr, countP_roomSlot a hr hd hp]

theorem countP_sameTeacherSlot (a : Assg) {x : ScheduleEntry} (hx : x ∈ entries a) :
    (entries a).countP (fun y => sameTeacherSlot x y) =
      subjectSlotCount a x.subject x.day x.period := by
  obtain ⟨_, hd, hp, hsubj, _, _⟩ := mem_entries.mp hx
  have hcongr : (entries a).countP (fun y => sameTeacherSlot x y) =
      (entries a).countP
        (fun y => teacherOf y.subject == teacherOf x.subject &&
          y.day == x.day && y.period == x.period) := by
    refine List.countP_congr fun y _ => ?_
    unfold sameTeacherSlot
    simp only [Bool.and_eq_true, beq_iff_eq]
    constructor
    · rintro ⟨⟨h1, h2⟩, h3⟩; exact ⟨⟨h1.symm, h2.symm⟩, h3.symm⟩
    · rintro ⟨⟨h1, h2⟩, h3⟩; exact ⟨⟨h1.symm, h2.symm⟩, h3.symm⟩
  rw [hcongr, countP_teacherSlot a hsubj hd hp]

/-! ## Sum rearrangement for the objective -/

theorem lsum_add (l : List α) (f g : α → Nat) :
    lsum l (fun x => f x + g x) = lsum l f + lsum l g := by
  induction l with
  | nil => rfl
  | cons x t ih => rw [lsum_cons, lsum_cons, lsum_cons, ih]; omega

theorem lsum_comm (l : List α) (m : List β) (f : α → β → Nat) :
    lsum l (fun x => lsum m (f x)) = lsum m fun y => lsum l fun x => f x y := by
  induction l with
  | nil => exact (lsum_eq_zero fun y _ => rfl).symm
  | cons x t ih =>
    rw [lsum_cons, ih, ← lsum_add]
    exact lsum_congr fun y _ => (lsum_cons x t fun x2 => f x2 y).symm

theorem objective_eq_mismatch (a : Assg) :
    objectiveValue a = (entries a).countP mismatchedRoom := by
  rw [countP_entries]
  unfold objectiveValue
  refine lsum_congr fun s _ => ?_
  rw [lsum_comm subjects dayIdxs]
  refine lsum_congr fun d _ => ?_
  rw [lsum_comm subjects periods]
  refine lsum_congr fun p _ => ?_
  refine lsum_congr fun subj _ => lsum_congr fun r _ => ?_
  unfold mismatchedRoom
  by_cases hr : r = roomOf subj
  · simp [hr]
  · simp [hr, beq_eq_false_iff_ne.mpr hr]

/-! ## The engine outcome at the concrete solution -/

theorem aStar_opt : EngineReturns CpStatus.OPTIMAL aStar :=
  ⟨aStar_sat, fun b _ => by rw [aStar_obj]; exact Nat.zero_le _⟩

/-! ## Claim theorems -/

/-- C2: for every accepted (OPTIMAL or FEASIBLE) assignment and every
(student, subject) pair, the number of variables resolved true across
all days, periods and rooms, and likewise the number of decoded schedule
entries for that pair, equals the subject's weekly quota
`subject_hours[subject]`. -/
theorem quota_exact (st : CpStatus) (a : Assg) (hret : EngineReturns st a)
    (hacc : st = .OPTIMAL ∨ st = .FEASIBLE) :
    ∀ s ∈ students, ∀ subj ∈ subjects,
      pairTrueCount a s subj = hoursOf subj ∧
      (entries a).countP (fun e => e.student == s && e.subject == subj) =
        hoursOf subj := by
  have hsat : Satisfies a := by
    rcases hacc with rfl | rfl
    · exact hret.1
    · exact hret
  intro s hs subj hsubj
  refine ⟨satisfies_quota hsat s hs subj hsubj, ?_⟩
  rw [countP_pair a hs hsubj]
  exact satisfies_quota hsat s hs subj hsubj

theorem quota_exact_witness :
    pairTrueCount aStar "S1" "A" = hoursOf "A" ∧
    (entries aStar).countP (fun e => e.student == "S1" && e.subject == "A") =
      hoursOf "A" :=
  quota_exact CpStatus.OPTIMAL aStar aStar_opt (Or.inl rfl)
    "S1" (by decide) "A" (by decide)

/-- C3: in every decoded schedule, no two entries share the same
(student, day, period), no two entries share the same (room, day,
period), and no two entries whose subjects map to the same teacher share
the same (day, period). -/
theorem decoded_no_conflicts (a : Assg) (h : Satisfies a) :
    ((entries a).Pairwise fun x y => sameStudentSlot x y = false) ∧
    ((entries a).Pairwise fun x y => sameRoomSlot x y = false) ∧
    ((entries a).Pairwise fun x y => sameTeacherSlot x y = false) := by
  refine ⟨?_, ?_, ?_⟩
  · refine pairwise_of_countP_le_one ?_ ?_
    · intro x _
      unfold sameStudentSlot
      simp
    · intro x hx
      obtain ⟨hs, hd, hp, _, _, _⟩ := mem_entries.mp hx
      rw [countP_sameStudentSlot a hx]
      exact satisfies_studentSlot h _ hs _ hd _ hp
  · refine pairwise_of_countP_le_one ?_ ?_
    · intro x _
      unfold sameRoomSlot
      simp
    · intro x hx
      obtain ⟨_, hd, hp, _, hr, _⟩ := mem_entries.mp hx
      rw [countP_sameRoomSlot a hx]
      exact satisfies_roomSlot h _ hr _ hd _ hp
  · refine pairwise_of_countP_le_one ?_ ?_
    · intro x _
      unfold sameTeacherSlot
      simp
    · intro x hx
      obtain ⟨_, hd, hp, hsubj, _, _⟩ := mem_entries.mp hx
      rw [countP_sameTeacherSlot a hx]
      exact satisfies_subjectSlot h _ hsubj _ hd _ hp

theorem decoded_no_conflicts_witness :
    ((entries aStar).Pairwise fun x y => sameStudentSlot x y = false) ∧
    ((entries aStar).Pairwise fun x y => sameRoomSlot x y = false) ∧
    ((entries aStar).Pairwise fun x y => sameTeacherSlot x y = false) :=
  decoded_no_conflicts aStar aStar_sat

/-- C4: under every satisfying assignment, each variable of a subject
taught by the day-restricted teacher T1 is false on every day outside
the allowed set (those variables are pinned by `model.Add(x == 0)`
before search begins), and consequently every decoded entry of a T1
subject has its day in the allowed set. -/
theorem t1_restricted_days (a : Assg) (h : Satisfies a) :
    (∀ s ∈ students, ∀ subj ∈ subjects, teacherOf subj = "T1" →
      ∀ d ∈ dayIdxs, d ∉ allowed_days_t1 → ∀ p ∈ periods, ∀ r ∈ roomValues,
        a s subj d p r = false) ∧
    (∀ e ∈ entries a, teacherOf e.subject = "T1" → e.day ∈ allowed_days_t1) := by
  refine ⟨satisfies_t1 h, ?_⟩
  intro e he ht
  obtain ⟨hs, hd, hp, hsubj, hr, ha⟩ := mem_entries.mp he
  by_contra hnot
  have hf := satisfies_t1 h e.student hs e.subject hsubj ht e.day hd hnot
    e.period hp e.room hr
  rw [hf] at ha
  cases ha

theorem t1_restricted_days_witness :
    (∀ s ∈ students, ∀ subj ∈ subjects, teacherOf subj = "T1" →
      ∀ d ∈ dayIdxs, d ∉ allowed_days_t1 → ∀ p ∈ periods, ∀ r ∈ roomValues,
        aStar s subj d p r = false) ∧
    (∀ e ∈ entries aStar, teacherOf e.subject = "T1" →
      e.day ∈ allowed_days_t1) :=
  t1_restricted_days aStar aStar_sat

/-- C5: for an accepted (OPTIMAL or FEASIBLE) result, the minimized
objective equals the number of variables resolved true whose room
differs from the subject's preferred room (equivalently, the number of
decoded entries in a non-preferred room), and an OPTIMAL result's
penalty is less than or equal to the penalty of every assignment
satisfying the hard constraints of the same model. -/
theorem penalty_spec (st : CpStatus) (a : Assg) (hret : EngineReturns st a)
    (hacc : st = .OPTIMAL ∨ st = .FEASIBLE) :
    objectiveValue a = (entries a).countP mismatchedRoom ∧
    (st = .OPTIMAL → ∀ b, Satisfies b → objectiveValue a ≤ objectiveValue b) := by
  refine ⟨objective_eq_mismatch a, ?_⟩
  rintro rfl
  exact hret.2

theorem penalty_spec_witness :
    objectiveValue aStar = (entries aStar).countP mismatchedRoom ∧
    (CpStatus.OPTIMAL = CpStatus.OPTIMAL →
      ∀ b, Satisfies b → objectiveValue aStar ≤ objectiveValue b) :=
  penalty_spec CpStatus.OPTIMAL aStar aStar_opt (Or.inl rfl)

/-- C7: decoding is deterministic and exact, iterating students, days
and periods in their given order: each variable resolved true
contributes exactly one entry, slots with no true variable contribute
none, and decoding the same assignment twice yields the identical entry
sequence. -/
theorem decode_exact (a : Assg) :
    (∀ e : ScheduleEntry,
      (entries a).count e =
        if e.student ∈ students ∧ e.day ∈ dayIdxs ∧ e.period ∈ periods ∧
            e.subject ∈ subjects ∧ e.room ∈ roomValues ∧
            a e.student e.subject e.day e.period e.room = true
        then 1 else 0) ∧
    entries a = entries a := by
  refine ⟨?_, rfl⟩
  intro e
  rw [List.count_eq_countP, countP_entries]
  by_cases hc : e.student ∈ students ∧ e.day ∈ dayIdxs ∧ e.period ∈ periods ∧
      e.subject ∈ subjects ∧ e.room ∈ roomValues ∧
      a e.student e.subject e.day e.period e.room = true
  · rw [if_pos hc]
    obtain ⟨hs, hd, hp, hsubj, hr, ha⟩ := hc
    refine (lsum_eq_single students_nodup hs ?_).trans ?_
    · intro y _ hne
      refine lsum_eq_zero fun d _ => lsum_eq_zero fun p _ =>
        lsum_eq_zero fun subj2 _ => lsum_eq_zero fun r2 _ => ?_
      have hb : ((⟨y, d, p, subj2, r2⟩ : ScheduleEntry) == e) = false :=
        beq_eq_false_iff_ne.mpr fun hEq => hne (congrArg ScheduleEntry.student hEq)
      simp [hb]
    · refine (lsum_eq_single dayIdxs_nodup hd ?_).trans ?_
      · intro y _ hne
        refine lsum_eq_zero fun p _ =>
          lsum_eq_zero fun subj2 _ => lsum_eq_zero fun r2 _ => ?_
        have hb : ((⟨e.student, y, p, subj2, r2⟩ : ScheduleEntry) == e) = false :=
          beq_eq_false_iff_ne.mpr fun hEq => hne (congrArg ScheduleEntry.day hEq)
        simp [hb]
      · refine (lsum_eq_single periods_nodup hp ?_).trans ?_
        · intro y _ hne
          refine lsum_eq_zero fun subj2 _ => lsum_eq_zero fun r2 _ => ?_
          have hb : ((⟨e.student, e.day, y, subj2, r2⟩ : ScheduleEntry) == e) = false :=
            beq_eq_false_iff_ne.mpr fun hEq => hne (congrArg ScheduleEntry.period hEq)
          simp [hb]
        · refine (lsum_eq_single subjects_nodup hsubj ?_).trans ?_
          · intro y _ hne
            refine lsum_eq_zero fun r2 _ => ?_
            have hb : ((⟨e.student, e.day, e.period, y, r2⟩ : ScheduleEntry) == e) = false :=
              beq_eq_false_iff_ne.mpr fun hEq => hne (congrArg ScheduleEntry.subject hEq)
            simp [hb]
          · refine (lsum_eq_single roomValues_nodup hr ?_).trans ?_
            · intro y _ hne
              have hb : ((⟨e.student, e.day, e.period, e.subject, y⟩ : ScheduleEntry) == e) = false :=
                beq_eq_false_iff_ne.mpr fun hEq => hne (congrArg ScheduleEntry.room hEq)
              simp [hb]
            · have heta : (⟨e.student, e.day, e.period, e.subject, e.room⟩ : ScheduleEntry) = e := rfl
              rw [heta]
              simp [ha]
  · rw [if_neg hc]
    refine lsum_eq_zero fun s hs => lsum_eq_zero fun d hd =>
      lsum_eq_zero fun p hp => lsum_eq_zero fun subj hsubj =>
      lsum_eq_zero fun r hr => ?_
    by_cases heq : (⟨s, d, p, subj, r⟩ : ScheduleEntry) = e
    · have ha : a s subj d p r = false := by
        cases h2 : a s subj d p r
        · rfl
        · exact absurd (by subst heq; exact ⟨hs, hd, hp, hsubj, hr, h2⟩) hc
      simp [ha]
    · have hb : ((⟨s, d, p, subj, r⟩ : ScheduleEntry) == e) = false :=
        beq_eq_false_iff_ne.mpr heq
      simp [hb]

/-! ## C1 and C6: build gating and outcome classification -/

/-- C1: if some teacher's total required lesson-slots exceed its
available slot capacity, the build reports MODEL_INVALID and search is
never entered; whether solving is attempted is decided by the pre-search
sanity check alone. -/
theorem model_invalid_gates_search (c : BuildConfig) (so : CpStatus) (t : String)
    (ht : t ∈ c.cfgSubjects.map c.cfgTeacherOf)
    (hlt : slotCapacity c t < requiredLessons c t) :
    buildAndSolve c so = (CpStatus.MODEL_INVALID, false) := by
  have hbad : sanityOK c = false := by
    cases hok : sanityOK c
    · rfl
    · exfalso
      unfold sanityOK at hok
      rw [List.all_eq_true] at hok
      have hle := hok t ht
      rw [decide_eq_true_eq] at hle
      omega
  unfold buildAndSolve
  rw [hbad]
  simp

theorem model_invalid_gates_search_witness :
    ("T" ∈ cfgZeroDays.cfgSubjects.map cfgZeroDays.cfgTeacherOf) ∧
    slotCapacity cfgZeroDays "T" < requiredLessons cfgZeroDays "T" ∧
    buildAndSolve cfgZeroDays CpStatus.OPTIMAL = (CpStatus.MODEL_INVALID, false) :=
  ⟨by decide, by decide,
    model_invalid_gates_search cfgZeroDays CpStatus.OPTIMAL "T" (by decide) (by decide)⟩

/-- C6: the result status is always one of exactly the five values
OPTIMAL, FEASIBLE, INFEASIBLE, UNKNOWN, MODEL_INVALID, and the decoded
ScheduleEntry sequence is produced and handed to the rendering
collaborator exactly when the status is OPTIMAL or FEASIBLE. -/
theorem status_five_and_handoff :
    (∀ st : CpStatus, st = .OPTIMAL ∨ st = .FEASIBLE ∨ st = .INFEASIBLE ∨
      st = .UNKNOWN ∨ st = .MODEL_INVALID) ∧
    (∀ (st : CpStatus) (a : Assg),
      (postSolve st a).isSome = true ↔ (st = .OPTIMAL ∨ st = .FEASIBLE)) ∧
    (∀ (st : CpStatus) (a : Assg), (st = .OPTIMAL ∨ st = .FEASIBLE) →
      postSolve st a = some (entries a)) := by
  refine ⟨?_, ?_, ?_⟩
  · intro st
    cases st <;> simp
  · intro st a
    cases st <;> simp [postSolve]
  · intro st a h
    rcases h with rfl | rfl <;> simp [postSolve]

theorem status_five_and_handoff_witness :
    postSolve CpStatus.OPTIMAL aStar = some (entries aStar) :=
  status_five_and_handoff.2.2 CpStatus.OPTIMAL aStar (Or.inl rfl)

/-! ## C8-C10: the chart renderer -/

/-- C8: called with an empty entries list, plot_schedule returns
immediately: nothing is drawn and no output artifact is persisted,
whatever the other arguments are. -/
theorem plot_empty_noop :
    ∀ (ss dd : List String) (pp : List Nat) (path : String),
      plot_schedule [] ss dd pp path = { savedTo := none, blocks := [] } := by
  intro ss dd pp path
  unfold plot_schedule
  simp

theorem insertSorted_perm (x : String) (l : List String) :
    (insertSorted x l).Perm (x :: l) := by
  induction l with
  | nil => exact List.Perm.refl _
  | cons z t ih =>
    unfold insertSorted
    by_cases h : strLe x z = true
    · rw [if_pos h]
    · rw [if_neg h]
      exact (List.Perm.cons z ih).trans (List.Perm.swap x z t)

theorem sortStrings_perm (l : List String) : (sortStrings l).Perm l := by
  induction l with
  | nil => exact List.Perm.refl _
  | cons z t ih =>
    unfold sortStrings
    exact (insertSorted_perm z (sortStrings t)).trans (List.Perm.cons z ih)

theorem mem_unique_rooms {es : List ScheduleEntry} {r : String} :
    r ∈ unique_rooms es ↔ r ∈ es.map (·.room) := by
  unfold unique_rooms
  rw [(sortStrings_perm _).mem_iff, List.mem_dedup]

theorem unique_rooms_nodup (es : List ScheduleEntry) : (unique_rooms es).Nodup := by
  unfold unique_rooms
  exact ((sortStrings_perm _).nodup_iff).mpr (List.nodup_dedup _)

theorem lookup_isSome_iff {l : List (String × Nat)} {k : String} :
    (l.lookup k).isSome = true ↔ k ∈ l.map Prod.fst := by
  induction l with
  | nil => simp [List.lookup]
  | cons x t ih =>
    obtain ⟨k1, v⟩ := x
    by_cases h : k = k1
    · subst h
      simp [List.lookup]
    · simp [List.lookup, beq_eq_false_iff_ne.mpr h, ih, h]

theorem room_colors_keys (es : List ScheduleEntry) :
    (room_colors es).map Prod.fst = unique_rooms es := by
  unfold room_colors
  rw [List.map_map]
  have hcomp : (Prod.fst ∘ fun ir : Nat × String => (ir.2, tab10 (ir.1 % 10))) =
      Prod.snd := rfl
  rw [hcomp, List.enum_map_snd]

/-- C9: for a non-empty entries list, the room-color map is keyed by
exactly the rooms occurring in the entries, so the color lookup
performed for each drawn entry is total and cannot fail. -/
theorem room_color_lookup_total (es : List ScheduleEntry) (_hne : es ≠ []) :
    (∀ r : String,
      ((room_colors es).lookup r).isSome = true ↔ r ∈ es.map (·.room)) ∧
    (∀ e ∈ es, ((room_colors es).lookup e.room).isSome = true) := by
  have hkeys : ∀ r : String,
      ((room_colors es).lookup r).isSome = true ↔ r ∈ unique_rooms es := by
    intro r
    rw [lookup_isSome_iff, room_colors_keys]
  refine ⟨?_, ?_⟩
  · intro r
    rw [hkeys, mem_unique_rooms]
  · intro e he
    rw [hkeys, mem_unique_rooms]
    exact List.mem_map_of_mem _ he

theorem room_color_lookup_total_witness :
    esOne ≠ [] ∧ (∀ e ∈ esOne, ((room_colors esOne).lookup e.room).isSome = true) :=
  ⟨by decide, (room_color_lookup_total esOne (by decide)).2⟩

theorem room_colors_length (es : List ScheduleEntry) :
    (room_colors es).length = (unique_rooms es).length := by
  unfold room_colors
  rw [List.length_map, List.enum_length]

theorem room_colors_get (es : List ScheduleEntry) (i : Nat)
    (hi : i < (room_colors es).length) (hi2 : i < (unique_rooms es).length) :
    (room_colors es).get ⟨i, hi⟩ =
      ((unique_rooms es).get ⟨i, hi2⟩, tab10 (i % 10)) := by
  simp [room_colors, List.get_eq_getElem, List.getElem_map, List.getElem_enum]

/-- C10: room colors cycle through a palette of 10: entries of the color
map whose indices are congruent modulo 10 receive the same color, and as
soon as more than 10 distinct rooms appear, two distinct rooms share a
color, so the coloring is injective only with at most 10 rooms. -/
theorem room_colors_cycle_mod10 :
    (∀ (es : List ScheduleEntry) (i j : Nat)
        (hi : i < (room_colors es).length) (hj : j < (room_colors es).length),
      i % 10 = j % 10 →
        ((room_colors es).get ⟨i, hi⟩).2 = ((room_colors es).get ⟨j, hj⟩).2) ∧
    (∀ es : List ScheduleEntry, 10 < (unique_rooms es).length →
      ∃ i j : Fin (room_colors es).length,
        ((room_colors es).get i).1 ≠ ((room_colors es).get j).1 ∧
        ((room_colors es).get i).2 = ((room_colors es).get j).2) := by
  constructor
  · intro es i j hi hj hmod
    have hi2 : i < (unique_rooms es).length := room_colors_length es ▸ hi
    have hj2 : j < (unique_rooms es).length := room_colors_length es ▸ hj
    rw [room_colors_get es i hi hi2, room_colors_get es j hj hj2]
    simp [tab10, hmod]
  · intro es hlen
    have h0 : (0 : Nat) < (unique_rooms es).length := by omega
    have hc0 : (0 : Nat) < (room_colors es).length := by
      rw [room_colors_length]; omega
    have hc10 : (10 : Nat) < (room_colors es).length := by
      rw [room_colors_length]; exact hlen
    refine ⟨⟨0, hc0⟩, ⟨10, hc10⟩, ?_, ?_⟩
    · rw [room_colors_get es 0 hc0 h0, room_colors_get es 10 hc10 hlen]
      intro hEq
      have hij := ((unique_rooms_nodup es).get_inj_iff).mp hEq
      cases hij
    · rw [room_colors_get es 0 hc0 h0, room_colors_get es 10 hc10 hlen]

theorem room_colors_cycle_mod10_witness :
    (((room_colors esBig).get ⟨0, by decide⟩).2 =
      ((room_colors esBig).get ⟨10, by decide⟩).2) ∧
    (∃ i j : Fin (room_colors esBig).length,
      ((room_colors esBig).get i).1 ≠ ((room_colors esBig).get j).1 ∧
      ((room_colors esBig).get i).2 = ((room_colors esBig).get j).2) :=
  ⟨room_colors_cycle_mod10.1 esBig 0 10 (by decide) (by decide) (by decide),
   room_colors_cycle_mod10.2 esBig (by decide)⟩
